import Mathlib

/-!
Verification development for the ContextGNN repository, covering the
index-remapping / logit-fusion pipeline of
`contextgnn/nn/models/contextgnn.py` (`ContextGNN.sample_step`,
`ContextGNN.construct_logits`) and the CSR batch expansion of
`benchmark/relbench_multi_vae.py` (`get_rhs_index`).

Tensors of ids are modelled as `List ℕ`, real-valued tensors as `ℚ`
valued lists or functions, and the random vector `torch.rand(n)` as an
explicit function `rnd : ℕ → ℚ` whose values lie in `[0, 1)`.
-/

namespace ContextGNN

/-- Model of the in-place fill `v[idx] = c` on a 1-d tensor viewed as a
function: every position listed in `idx` takes the value `c`, all other
positions keep their old value.  (All writes store the same constant, so
write order is irrelevant.) -/
def scatterFill (v : ℕ → ℚ) (idx : List ℕ) (c : ℚ) : ℕ → ℚ :=
  fun i => if i ∈ idx then c else v i

/-- Model of `torch.max` over a nonempty pool of indices: returns the index
of the largest value, earliest index winning ties (one deterministic
realisation of the backend's unspecified tie-break). -/
def selectMax (v : ℕ → ℚ) : List ℕ → Option ℕ
  | [] => none
  | i :: rest =>
    match selectMax v rest with
    | none => some i
    | some j => if v i < v j then some j else some i

/-- Model of `tensor.topk(k).indices` restricted to a pool of candidate
positions: `k` rounds of extract-max. -/
def topkList (v : ℕ → ℚ) : ℕ → List ℕ → List ℕ
  | 0, _ => []
  | k + 1, pool =>
    match selectMax v pool with
    | none => []
    | some i => i :: topkList v k (pool.erase i)

/-- `rnd.topk(k).indices` over the whole vector of length `n`. -/
def topk (v : ℕ → ℚ) (n k : ℕ) : List ℕ :=
  topkList v k (List.range n)

lemma selectMax_eq_none_iff (v : ℕ → ℚ) (l : List ℕ) :
    selectMax v l = none ↔ l = [] := by
  induction l with
  | nil => simp [selectMax]
  | cons i rest ih =>
    simp only [selectMax]
    cases h : selectMax v rest with
    | none => simp
    | some j =>
      constructor
      · intro hc
        by_cases hlt : v i < v j <;> simp [hlt] at hc
      · intro hc
        exact absurd hc (List.cons_ne_nil i rest)

lemma selectMax_mem {v : ℕ → ℚ} {l : List ℕ} {m : ℕ}
    (h : selectMax v l = some m) : m ∈ l := by
  induction l with
  | nil => simp [selectMax] at h
  | cons i rest ih =>
    simp only [selectMax] at h
    cases hr : selectMax v rest with
    | none =>
      rw [hr] at h
      simp at h
      simp [h]
    | some j =>
      rw [hr] at h
      by_cases hlt : v i < v j
      · simp [hlt] at h
        subst h
        exact List.mem_cons_of_mem i (ih hr)
      · simp [hlt] at h
        simp [h]

lemma selectMax_le {v : ℕ → ℚ} {l : List ℕ} {m : ℕ}
    (h : selectMax v l = some m) : ∀ x ∈ l, v x ≤ v m := by
  induction l generalizing m with
  | nil => simp [selectMax] at h
  | cons i rest ih =>
    simp only [selectMax] at h
    cases hr : selectMax v rest with
    | none =>
      rw [hr] at h
      simp only [Option.some.injEq] at h
      subst h
      have hre : rest = [] := (selectMax_eq_none_iff v rest).mp hr
      subst hre
      intro x hx
      simp at hx
      subst hx
      exact le_refl _
    | some j =>
      rw [hr] at h
      by_cases hlt : v i < v j
      · simp [hlt] at h
        subst h
        intro x hx
        rcases List.mem_cons.mp hx with hxi | hxr
        · subst hxi; exact le_of_lt hlt
        · exact ih hr x hxr
      · simp [hlt] at h
        subst h
        intro x hx
        rcases List.mem_cons.mp hx with hxi | hxr
        · subst hxi; exact le_refl _
        · exact le_trans (ih hr x hxr) (not_lt.mp hlt)

lemma topkList_subset {v : ℕ → ℚ} {k : ℕ} {pool : List ℕ} :
    ∀ a ∈ topkList v k pool, a ∈ pool := by
  induction k generalizing pool with
  | zero => simp [topkList]
  | succ k ih =>
    intro a ha
    simp only [topkList] at ha
    cases h : selectMax v pool with
    | none => rw [h] at ha; simp at ha
    | some i =>
      rw [h] at ha
      rcases List.mem_cons.mp ha with hai | har
      · subst hai; exact selectMax_mem h
      · exact List.erase_subset _ _ (ih a har)

lemma topkList_length {v : ℕ → ℚ} {k : ℕ} {pool : List ℕ}
    (hk : k ≤ pool.length) : (topkList v k pool).length = k := by
  induction k generalizing pool with
  | zero => simp [topkList]
  | succ k ih =>
    have hne : pool ≠ [] := by
      intro hnil
      rw [hnil] at hk
      simp at hk
    cases h : selectMax v pool with
    | none => exact absurd ((selectMax_eq_none_iff v pool).mp h) hne
    | some i =>
      have hi : i ∈ pool := selectMax_mem h
      have hlen : (pool.erase i).length = pool.length - 1 :=
        List.length_erase_of_mem hi
      have hk2 : k ≤ (pool.erase i).length := by
        rw [hlen]
        omega
      simp only [topkList, h, List.length_cons, ih hk2]

lemma topkList_nodup {v : ℕ → ℚ} {k : ℕ} {pool : List ℕ}
    (hnd : pool.Nodup) : (topkList v k pool).Nodup := by
  induction k generalizing pool with
  | zero => simp [topkList]
  | succ k ih =>
    cases h : selectMax v pool with
    | none => simp [topkList, h]
    | some i =>
      simp only [topkList, h, List.nodup_cons]
      refine ⟨?_, ih (hnd.erase i)⟩
      intro hmem
      exact hnd.not_mem_erase (topkList_subset i hmem)

lemma topkList_ge {v : ℕ → ℚ} {k : ℕ} {pool : List ℕ} {b : ℕ}
    (hb : b ∈ pool) (hnb : b ∉ topkList v k pool) :
    ∀ a ∈ topkList v k pool, v b ≤ v a := by
  induction k generalizing pool with
  | zero => simp [topkList]
  | succ k ih =>
    intro a ha
    cases h : selectMax v pool with
    | none =>
      rw [(selectMax_eq_none_iff v pool).mp h] at hb
      simp at hb
    | some i =>
      simp only [topkList, h] at ha hnb
      rw [List.mem_cons] at hnb
      push_neg at hnb
      rcases List.mem_cons.mp ha with hai | har
      · subst hai
        exact selectMax_le h b hb
      · have hbi : b ≠ i := hnb.1
        have hb2 : b ∈ pool.erase i := List.mem_erase_of_ne hbi |>.mpr hb
        exact ih hb2 hnb.2 a har

/-- Dominance: a duplicate-free set `A` of pool members whose values strictly
exceed the value of every other pool member is wholly contained in the top-k
as soon as it fits, i.e. `A.length ≤ k`. -/
lemma topkList_mem_of_dominant {v : ℕ → ℚ} {k : ℕ} {pool A : List ℕ}
    (hndA : A.Nodup) (hndP : pool.Nodup)
    (hsub : ∀ a ∈ A, a ∈ pool)
    (hdom : ∀ a ∈ A, ∀ b ∈ pool, b ∉ A → v b < v a)
    (hk : A.length ≤ k) :
    ∀ a ∈ A, a ∈ topkList v k pool := by
  induction k generalizing A pool with
  | zero =>
    intro a ha
    rw [Nat.le_zero, List.length_eq_zero] at hk
    rw [hk] at ha
    simp at ha
  | succ k ih =>
    intro a ha
    have hpne : pool ≠ [] := by
      intro hnil
      have := hsub a ha
      rw [hnil] at this
      simp at this
    cases h : selectMax v pool with
    | none => exact absurd ((selectMax_eq_none_iff v pool).mp h) hpne
    | some m =>
      have hmA : m ∈ A := by
        by_contra hmnA
        have hlt : v m < v a := hdom a ha m (selectMax_mem h) hmnA
        have hle : v a ≤ v m := selectMax_le h a (hsub a ha)
        exact absurd hle (not_le.mpr hlt)
      simp only [topkList, h]
      by_cases haem : a = m
      · subst haem
        exact List.mem_cons_self a _
      · refine List.mem_cons_of_mem m ?_
        refine ih (hndA.erase m) (hndP.erase m) ?_ ?_ ?_ a
          ((List.mem_erase_of_ne haem).mpr ha)
        · intro x hx
          have hxm : x ≠ m := by
            intro hxe
            subst hxe
            exact hndA.not_mem_erase hx
          exact (List.mem_erase_of_ne hxm).mpr
            (hsub x (List.mem_of_mem_erase hx))
        · intro x hx b hb hbnx
          have hbp : b ∈ pool := List.mem_of_mem_erase hb
          have hbm : b ≠ m := by
            intro hbe
            subst hbe
            exact hndP.not_mem_erase hb
          have hbnA : b ∉ A := by
            intro hbA
            exact hbnx ((List.mem_erase_of_ne hbm).mpr hbA)
          exact hdom x (List.mem_of_mem_erase hx) b hbp hbnA
        · have := List.length_erase_of_mem hmA
          have hApos : 0 < A.length := List.length_pos.mpr
            (List.ne_nil_of_mem hmA)
          omega

/-- The priority vector that `sample_step` builds before the top-k call
(`contextgnn.py` lines 100-106): random draws, overwritten by `3.` at the
sparse-path positions `rnd[rhs_idgnn_index] = 3.` and then by `4.` at the
ground-truth positions `rnd[rhs_y_index] = 4.` (the later write wins where
both apply). -/
def samplePriorities (rnd : ℕ → ℚ) (rhs_idgnn_index rhs_y_index : List ℕ) :
    ℕ → ℚ :=
  scatterFill (scatterFill rnd rhs_idgnn_index 3) rhs_y_index 4

/-- The sampled candidate set
`rhs_index = rnd.topk(self.rhs_sample_size, sorted=True).indices`
(`contextgnn.py` line 107). -/
def sampleIndices (rnd : ℕ → ℚ) (rhs_idgnn_index rhs_y_index : List ℕ)
    (num_rhs_nodes rhs_sample_size : ℕ) : List ℕ :=
  topk (samplePriorities rnd rhs_idgnn_index rhs_y_index)
    num_rhs_nodes rhs_sample_size

lemma samplePriorities_of_mem_y {rnd : ℕ → ℚ} {idgnn y : List ℕ} {i : ℕ}
    (hi : i ∈ y) : samplePriorities rnd idgnn y i = 4 := by
  simp [samplePriorities, scatterFill, hi]

lemma samplePriorities_of_mem_idgnn {rnd : ℕ → ℚ} {idgnn y : List ℕ} {i : ℕ}
    (hi : i ∈ idgnn) (hy : i ∉ y) :
    samplePriorities rnd idgnn y i = 3 := by
  simp [samplePriorities, scatterFill, hi, hy]

lemma samplePriorities_of_unforced {rnd : ℕ → ℚ} {idgnn y : List ℕ} {i : ℕ}
    (hi : i ∉ idgnn) (hy : i ∉ y) :
    samplePriorities rnd idgnn y i = rnd i := by
  simp [samplePriorities, scatterFill, hi, hy]

/-- Model of `torch_geometric.utils.map_index(src, index)` with
`inclusive=False`: the first component holds, for each element of `src`
present in `index`, its position inside `index` (the array `index` as used
in `sample_step` is duplicate-free, so the occurrence is unique); the
second component is the validity mask over all of `src`. -/
def mapIndex (src index : List ℕ) : List ℕ × List Bool :=
  ((src.filter (fun s => decide (s ∈ index))).map (fun s => index.indexOf s),
   src.map (fun s => decide (s ∈ index)))

/-- Model of `map_index(src, index, inclusive=True)`: every element of
`src` is assumed present in `index`; no mask is produced. -/
def mapIndexInclusive (src index : List ℕ) : List ℕ :=
  src.map (fun s => index.indexOf s)

/-- Boolean-mask indexing `l[mask]` on parallel arrays. -/
def maskFilter {α : Type} (l : List α) (mask : List Bool) : List α :=
  ((l.zip mask).filter (fun p => p.2)).map (fun p => p.1)

/-- The tuple returned by `ContextGNN.sample_step`, plus the internal
sampled candidate array `rhs_index` (kept so that properties of the sampled
set can be stated). -/
structure SampleStepResult where
  rhs_idgnn_index : List ℕ
  rhs_index : List ℕ
  rhs_embedding : List (List ℚ)
  lhs_idgnn_batch : List ℕ
  rhs_gnn_embedding : List (List ℚ)
  lhs_y_batch : List ℕ
  rhs_y_index : List ℕ

/-- Model of `ContextGNN.sample_step` (`contextgnn.py` lines 98-122).
`num_rhs_nodes` and `rhs_sample_size` are the model attributes, `rnd` the
vector drawn by `torch.rand(self.num_rhs_nodes)`, and `rhsEmbeddingW` the
row lookup of `self.rhs_embedding`.  The two `inclusive` guards and the
mask-filtering of the parallel arrays follow lines 108-120. -/
def sampleStep (num_rhs_nodes rhs_sample_size : ℕ) (rnd : ℕ → ℚ)
    (rhsEmbeddingW : ℕ → List ℚ)
    (rhs_idgnn_index lhs_idgnn_batch : List ℕ)
    (rhs_gnn_embedding : List (List ℚ))
    (lhs_y_batch rhs_y_index : List ℕ) : SampleStepResult :=
  let rhs_index := sampleIndices rnd rhs_idgnn_index rhs_y_index
    num_rhs_nodes rhs_sample_size
  let inclusive1 := rhs_y_index.length ≤ rhs_sample_size
  let rhs_y_mapped := if inclusive1 then mapIndexInclusive rhs_y_index rhs_index
    else (mapIndex rhs_y_index rhs_index).1
  let mask1 := (mapIndex rhs_y_index rhs_index).2
  let lhs_y_out := if inclusive1 then lhs_y_batch
    else maskFilter lhs_y_batch mask1
  let rhs_embedding := rhs_index.map rhsEmbeddingW
  let inclusive2 :=
    rhs_y_mapped.length + rhs_idgnn_index.length ≤ rhs_sample_size
  let rhs_idgnn_mapped := if inclusive2 then
    mapIndexInclusive rhs_idgnn_index rhs_index
    else (mapIndex rhs_idgnn_index rhs_index).1
  let mask2 := (mapIndex rhs_idgnn_index rhs_index).2
  let lhs_idgnn_out := if inclusive2 then lhs_idgnn_batch
    else maskFilter lhs_idgnn_batch mask2
  let rhs_gnn_out := if inclusive2 then rhs_gnn_embedding
    else maskFilter rhs_gnn_embedding mask2
  ⟨rhs_idgnn_mapped, rhs_index, rhs_embedding, lhs_idgnn_out,
    rhs_gnn_out, lhs_y_out, rhs_y_mapped⟩

lemma sampleIndices_length {rnd : ℕ → ℚ} {idgnn y : List ℕ} {n k : ℕ}
    (hk : k ≤ n) : (sampleIndices rnd idgnn y n k).length = k :=
  topkList_length (by simpa using hk)

lemma sampleIndices_nodup (rnd : ℕ → ℚ) (idgnn y : List ℕ) (n k : ℕ) :
    (sampleIndices rnd idgnn y n k).Nodup :=
  topkList_nodup (List.nodup_range n)

lemma sampleIndices_lt (rnd : ℕ → ℚ) (idgnn y : List ℕ) (n k : ℕ) :
    ∀ s ∈ sampleIndices rnd idgnn y n k, s < n := by
  intro s hs
  have := topkList_subset s hs
  simpa using this

/-- Required-set inclusion: whenever the number of distinct required ids
fits the budget, all of them survive the top-k (they carry the strictly
largest priority value `4`). -/
lemma sampleIndices_required_mem {rnd : ℕ → ℚ} {idgnn y : List ℕ} {n k : ℕ}
    (hrnd : ∀ i, rnd i < 1) (hy : ∀ s ∈ y, s < n)
    (hcard : y.toFinset.card ≤ k) :
    ∀ s ∈ y, s ∈ sampleIndices rnd idgnn y n k := by
  intro s hs
  have hdedup : s ∈ y.dedup := List.mem_dedup.mpr hs
  refine topkList_mem_of_dominant
    (List.nodup_dedup y) (List.nodup_range n) ?_ ?_ ?_ s hdedup
  · intro a ha
    exact List.mem_range.mpr (hy a (List.mem_dedup.mp ha))
  · intro a ha b hb hbn
    have ha4 : samplePriorities rnd idgnn y a = 4 :=
      samplePriorities_of_mem_y (List.mem_dedup.mp ha)
    have hbny : b ∉ y := fun hby => hbn (List.mem_dedup.mpr hby)
    rw [ha4]
    by_cases hbi : b ∈ idgnn
    · rw [samplePriorities_of_mem_idgnn hbi hbny]
      norm_num
    · rw [samplePriorities_of_unforced hbi hbny]
      exact lt_trans (hrnd b) (by norm_num)
  · rw [← List.card_toFinset]
    exact hcard

/-- Every id selected by the top-k carries a priority at least as large as
any unselected id's priority. -/
lemma sampleIndices_dominates {rnd : ℕ → ℚ} {idgnn y : List ℕ} {n k : ℕ}
    {b : ℕ} (hb : b < n) (hbn : b ∉ sampleIndices rnd idgnn y n k) :
    ∀ a ∈ sampleIndices rnd idgnn y n k,
      samplePriorities rnd idgnn y b ≤ samplePriorities rnd idgnn y a :=
  topkList_ge (List.mem_range.mpr hb) hbn

/-- Length of the remapped `rhs_y_index` returned by `sample_step`: under
the first inclusive guard the remap preserves the length, otherwise the
absent ids are dropped. -/
lemma sampleStep_rhs_y_length (n k : ℕ) (rnd : ℕ → ℚ) (emb : ℕ → List ℚ)
    (idgnn lhsb : List ℕ) (gnnE : List (List ℚ)) (lhsy y : List ℕ) :
    (sampleStep n k rnd emb idgnn lhsb gnnE lhsy y).rhs_y_index.length =
    if y.length ≤ k then y.length
    else (y.filter
      (fun s => decide (s ∈ sampleIndices rnd idgnn y n k))).length := by
  by_cases h : y.length ≤ k
  · simp [sampleStep, h, mapIndexInclusive]
  · simp [sampleStep, h, mapIndex]

/-- A duplicate-free set of values that all occur in `y` and all lie in `S`
is no larger than the filtered list `y.filter (· ∈ S)`. -/
lemma card_le_length_filter {y S : List ℕ} (T : Finset ℕ)
    (hT : ∀ t ∈ T, t ∈ y ∧ t ∈ S) :
    T.card ≤ (y.filter (fun s => decide (s ∈ S))).length := by
  have h1 : T ⊆ (y.filter (fun s => decide (s ∈ S))).toFinset := by
    intro t ht
    rw [List.mem_toFinset, List.mem_filter]
    exact ⟨(hT t ht).1, by simp [(hT t ht).2]⟩
  exact le_trans (Finset.card_le_card h1) (List.toFinset_card_le _)

/-- **C2**: for every catalog size `n`, budget `k ≤ n`, priority set
`idgnn` and required set `y` of valid ids, the Candidate Sampler
(the priority-array top-k of `sample_step`) returns exactly `k` distinct
candidate ids, and whenever the number of distinct required ids is at most
`k`, every required id is contained in the returned set. -/
theorem sampler_budget_and_required_inclusion
    (rnd : ℕ → ℚ) (idgnn y : List ℕ) (n k : ℕ)
    (hrnd : ∀ i, rnd i < 1) (hk : k ≤ n)
    (hy : ∀ s ∈ y, s < n) (hidgnn : ∀ s ∈ idgnn, s < n) :
    (sampleIndices rnd idgnn y n k).length = k ∧
    (sampleIndices rnd idgnn y n k).Nodup ∧
    (y.toFinset.card ≤ k →
      ∀ s ∈ y, s ∈ sampleIndices rnd idgnn y n k) := by
  refine ⟨sampleIndices_length hk, sampleIndices_nodup rnd idgnn y n k, ?_⟩
  intro hcard
  exact sampleIndices_required_mem hrnd hy hcard

/-- Witness for C2 at the spec's concrete scenario: `numCandidates = 10`,
`rhsSampleSize = 4`, required set `{7}`, priority set `{2, 3}`. -/
theorem sampler_budget_and_required_inclusion_witness :
    (sampleIndices (fun _ => (0 : ℚ)) [2, 3] [7] 10 4).length = 4 ∧
    (sampleIndices (fun _ => (0 : ℚ)) [2, 3] [7] 10 4).Nodup ∧
    (([7] : List ℕ).toFinset.card ≤ 4 →
      ∀ s ∈ [7], s ∈ sampleIndices (fun _ => (0 : ℚ)) [2, 3] [7] 10 4) :=
  sampler_budget_and_required_inclusion (fun _ => 0) [2, 3] [7] 10 4
    (fun _ => by norm_num) (by norm_num) (by decide) (by decide)

/-- **C6**: when the distinct required ids fit the budget but the union of
required and priority ids overflows it, every required id is still
selected, every excluded forced id is a priority-only id (never a required
id), and an id in both sets receives the highest priority value `4`. -/
theorem required_beats_priority_on_overflow
    (rnd : ℕ → ℚ) (idgnn y : List ℕ) (n k : ℕ)
    (hrnd : ∀ i, rnd i < 1) (hk : k ≤ n)
    (hy : ∀ s ∈ y, s < n) (hidgnn : ∀ s ∈ idgnn, s < n)
    (hfits : y.toFinset.card ≤ k)
    (hover : k < (y.toFinset ∪ idgnn.toFinset).card) :
    (∀ s ∈ y, s ∈ sampleIndices rnd idgnn y n k) ∧
    (∀ s, (s ∈ idgnn ∨ s ∈ y) → s ∉ sampleIndices rnd idgnn y n k →
      s ∈ idgnn ∧ s ∉ y) ∧
    (∀ s ∈ y, samplePriorities rnd idgnn y s = 4) := by
  refine ⟨sampleIndices_required_mem hrnd hy hfits, ?_,
    fun s hs => samplePriorities_of_mem_y hs⟩
  intro s hsor hsel
  have hsy : s ∉ y := fun hsymem =>
    hsel (sampleIndices_required_mem hrnd hy hfits s hsymem)
  rcases hsor with h | h
  · exact ⟨h, hsy⟩
  · exact absurd h hsy

/-- Witness for C6: `n = 4`, `k = 2`, required `{0}`, priority
`{1, 2, 3}`; the union has 4 ids, overflowing the budget 2. -/
theorem required_beats_priority_on_overflow_witness :
    (∀ s ∈ [0], s ∈ sampleIndices (fun _ => (0 : ℚ)) [1, 2, 3] [0] 4 2) ∧
    (∀ s, (s ∈ [1, 2, 3] ∨ s ∈ [0]) →
      s ∉ sampleIndices (fun _ => (0 : ℚ)) [1, 2, 3] [0] 4 2 →
      s ∈ [1, 2, 3] ∧ s ∉ [0]) ∧
    (∀ s ∈ [0], samplePriorities (fun _ => (0 : ℚ)) [1, 2, 3] [0] s = 4) :=
  required_beats_priority_on_overflow (fun _ => 0) [1, 2, 3] [0] 4 2
    (fun _ => by norm_num) (by norm_num) (by decide) (by decide)
    (by decide) (by decide)

/-- **C4**: remapping an id placed by the Sampler at position `p` of the
sampled candidate array returns exactly `p` with a `true` mask entry;
remapping an id absent from the array reports it absent (`false` mask,
no output position); in general the validity mask is `true` exactly at
the input positions whose id occurs in the sampled array. -/
theorem remap_roundtrip (rnd : ℕ → ℚ) (idgnn y : List ℕ) (n k : ℕ) :
    (∀ p, (hp : p < (sampleIndices rnd idgnn y n k).length) →
      mapIndex [(sampleIndices rnd idgnn y n k).get ⟨p, hp⟩]
        (sampleIndices rnd idgnn y n k) = ([p], [true])) ∧
    (∀ s, s ∉ sampleIndices rnd idgnn y n k →
      mapIndex [s] (sampleIndices rnd idgnn y n k) = ([], [false])) ∧
    (∀ src : List ℕ, (mapIndex src (sampleIndices rnd idgnn y n k)).2 =
      src.map (fun s => decide (s ∈ sampleIndices rnd idgnn y n k))) := by
  have hnd := sampleIndices_nodup rnd idgnn y n k
  refine ⟨?_, ?_, fun src => rfl⟩
  · intro p hp
    have hmem : (sampleIndices rnd idgnn y n k).get ⟨p, hp⟩ ∈
        sampleIndices rnd idgnn y n k := List.get_mem _ _ _
    simp [mapIndex, hmem, List.indexOf_getElem hnd p hp]
  · intro s hs
    simp [mapIndex, hs]

/-- Witness for C4 at the spec's concrete scenario (`n = 10`, `k = 4`,
required `{7}`, priority `{2, 3}`): position 0 round-trips and the unforced
id 9 is reported absent. -/
theorem remap_roundtrip_witness :
    mapIndex [(sampleIndices (fun _ => (0 : ℚ)) [2, 3] [7] 10 4).get
        ⟨0, by decide⟩]
      (sampleIndices (fun _ => (0 : ℚ)) [2, 3] [7] 10 4) = ([0], [true]) ∧
    mapIndex [9] (sampleIndices (fun _ => (0 : ℚ)) [2, 3] [7] 10 4)
      = ([], [false]) :=
  ⟨(remap_roundtrip (fun _ => 0) [2, 3] [7] 10 4).1 0 (by decide),
   (remap_roundtrip (fun _ => 0) [2, 3] [7] 10 4).2.1 9 (by decide)⟩

/-- **C5**: whenever an inclusive fast-path guard of `sample_step` holds —
`rhs_y_index.numel() <= rhs_sample_size` for the positives remap, or
remapped `rhs_y_index.numel() + rhs_idgnn_index.numel() <= rhs_sample_size`
for the sparse-path remap — every id being remapped is present in the
sampled candidate array, so no entry would be masked out. -/
theorem inclusive_fast_path_total
    (n k : ℕ) (rnd : ℕ → ℚ) (emb : ℕ → List ℚ)
    (idgnn lhsb : List ℕ) (gnnE : List (List ℚ)) (lhsy y : List ℕ)
    (hrnd : ∀ i, rnd i < 1) (hk : k ≤ n)
    (hy : ∀ s ∈ y, s < n) (hidgnn : ∀ s ∈ idgnn, s < n) :
    (y.length ≤ k → ∀ s ∈ y, s ∈ sampleIndices rnd idgnn y n k) ∧
    ((sampleStep n k rnd emb idgnn lhsb gnnE lhsy y).rhs_y_index.length
        + idgnn.length ≤ k →
      ∀ s ∈ idgnn, s ∈ sampleIndices rnd idgnn y n k) := by
  have hndS : (sampleIndices rnd idgnn y n k).Nodup :=
    sampleIndices_nodup rnd idgnn y n k
  have hlenS : (sampleIndices rnd idgnn y n k).length = k :=
    sampleIndices_length hk
  have hcardS : (sampleIndices rnd idgnn y n k).toFinset.card = k := by
    rw [List.toFinset_card_of_nodup hndS, hlenS]
  constructor
  · intro hyk
    refine sampleIndices_required_mem hrnd hy ?_
    calc y.toFinset.card = y.dedup.length := List.card_toFinset y
      _ ≤ y.length := (List.dedup_sublist y).length_le
      _ ≤ k := hyk
  · intro hguard s hs
    by_contra hgS
    rw [sampleStep_rhs_y_length] at hguard
    have hslt : s < n := hidgnn s hs
    have hdom := sampleIndices_dominates hslt hgS
    have hginz : 1 ≤ idgnn.length :=
      List.length_pos.mpr (List.ne_nil_of_mem hs)
    by_cases hsy : s ∈ y
    · -- the dropped id carries priority 4, so the whole sampled array
      -- consists of required ids
      have hSy : ∀ a ∈ sampleIndices rnd idgnn y n k, a ∈ y := by
        intro a ha
        by_contra hay
        have hle := hdom a ha
        rw [samplePriorities_of_mem_y hsy] at hle
        by_cases hai : a ∈ idgnn
        · rw [samplePriorities_of_mem_idgnn hai hay] at hle
          norm_num at hle
        · rw [samplePriorities_of_unforced hai hay] at hle
          have : (4 : ℚ) < 1 := lt_of_le_of_lt hle (hrnd a)
          norm_num at this
      have hinsert : insert s (sampleIndices rnd idgnn y n k).toFinset ⊆
          y.toFinset := by
        intro t ht
        rcases Finset.mem_insert.mp ht with h | h
        · subst h; exact List.mem_toFinset.mpr hsy
        · exact List.mem_toFinset.mpr (hSy t (List.mem_toFinset.mp h))
      have hcardins : (insert s
          (sampleIndices rnd idgnn y n k).toFinset).card = k + 1 := by
        rw [Finset.card_insert_of_not_mem
          (fun hsT => hgS (List.mem_toFinset.mp hsT)), hcardS]
      have hylen : k + 1 ≤ y.length := by
        calc k + 1 = _ := hcardins.symm
          _ ≤ y.toFinset.card := Finset.card_le_card hinsert
          _ ≤ y.length := List.toFinset_card_le y
      have hincl : ¬ y.length ≤ k := by omega
      rw [if_neg hincl] at hguard
      have hfl : k ≤ (y.filter (fun t =>
          decide (t ∈ sampleIndices rnd idgnn y n k))).length := by
        refine le_trans (le_of_eq hcardS.symm) (card_le_length_filter _ ?_)
        intro t ht
        exact ⟨hSy t (List.mem_toFinset.mp ht), List.mem_toFinset.mp ht⟩
      omega
    · -- the dropped id carries priority 3, so every sampled id is forced
      have hclass : ∀ a ∈ sampleIndices rnd idgnn y n k,
          a ∈ y ∨ a ∈ idgnn := by
        intro a ha
        by_contra hno
        push_neg at hno
        have hle := hdom a ha
        rw [samplePriorities_of_mem_idgnn hs hsy,
          samplePriorities_of_unforced hno.2 hno.1] at hle
        have : (3 : ℚ) < 1 := lt_of_le_of_lt hle (hrnd a)
        norm_num at this
      have hAB : ((sampleIndices rnd idgnn y n k).toFinset.filter
            (fun t => t ∈ y)).card +
          ((sampleIndices rnd idgnn y n k).toFinset.filter
            (fun t => ¬ t ∈ y)).card = k := by
        rw [Finset.filter_card_add_filter_neg_card_eq_card, hcardS]
      -- bound the surviving positives from below by the required part
      have hy2 : ((sampleIndices rnd idgnn y n k).toFinset.filter
          (fun t => t ∈ y)).card ≤
          (if y.length ≤ k then y.length else (y.filter (fun t =>
            decide (t ∈ sampleIndices rnd idgnn y n k))).length) := by
        by_cases hincl : y.length ≤ k
        · rw [if_pos hincl]
          refine le_trans (Finset.card_le_card ?_) (List.toFinset_card_le y)
          intro t ht
          exact List.mem_toFinset.mpr (Finset.mem_filter.mp ht).2
        · rw [if_neg hincl]
          refine card_le_length_filter _ ?_
          intro t ht
          exact ⟨(Finset.mem_filter.mp ht).2,
            List.mem_toFinset.mp (Finset.mem_filter.mp ht).1⟩
      -- bound the sparse-path multiplicity from below by the non-required
      -- part plus the dropped id itself
      have hB : ((sampleIndices rnd idgnn y n k).toFinset.filter
          (fun t => ¬ t ∈ y)).card + 1 ≤ idgnn.length := by
        have hsub : insert s ((sampleIndices rnd idgnn y n k).toFinset.filter
            (fun t => ¬ t ∈ y)) ⊆ idgnn.toFinset := by
          intro t ht
          rcases Finset.mem_insert.mp ht with h | h
          · subst h; exact List.mem_toFinset.mpr hs
          · have hmem := Finset.mem_filter.mp h
            rcases hclass t (List.mem_toFinset.mp hmem.1) with hty | hti
            · exact absurd hty hmem.2
            · exact List.mem_toFinset.mpr hti
        have hns : s ∉ (sampleIndices rnd idgnn y n k).toFinset.filter
            (fun t => ¬ t ∈ y) := by
          intro hsb
          exact hgS (List.mem_toFinset.mp (Finset.mem_filter.mp hsb).1)
        calc _ = (insert s ((sampleIndices rnd idgnn y n k).toFinset.filter
              (fun t => ¬ t ∈ y))).card :=
            (Finset.card_insert_of_not_mem hns).symm
          _ ≤ idgnn.toFinset.card := Finset.card_le_card hsub
          _ ≤ idgnn.length := List.toFinset_card_le idgnn
      omega

/-- Witness for C5: `n = 6`, `k = 4`, required `[0, 1]`, priority `[2]`;
both guards hold (`2 ≤ 4` and `2 + 1 ≤ 4`) and both remaps are total. -/
theorem inclusive_fast_path_total_witness :
    (([0, 1] : List ℕ).length ≤ 4 →
      ∀ s ∈ [0, 1], s ∈ sampleIndices (fun _ => (0 : ℚ)) [2] [0, 1] 6 4) ∧
    ((sampleStep 6 4 (fun _ => (0 : ℚ)) (fun _ => []) [2] [5]
        [[1]] [9] [0, 1]).rhs_y_index.length + ([2] : List ℕ).length ≤ 4 →
      ∀ s ∈ [2], s ∈ sampleIndices (fun _ => (0 : ℚ)) [2] [0, 1] 6 4) :=
  inclusive_fast_path_total 6 4 (fun _ => 0) (fun _ => []) [2] [5]
    [[1]] [9] [0, 1] (fun _ => by norm_num) (by norm_num)
    (by decide) (by decide)

lemma mapIndex_fst_length (src index : List ℕ) :
    (mapIndex src index).1.length =
    (src.filter (fun s => decide (s ∈ index))).length := by
  simp [mapIndex]

lemma maskFilter_length {α : Type} (l : List α) (src : List ℕ)
    (p : ℕ → Bool) (h : l.length = src.length) :
    (maskFilter l (src.map p)).length = (src.filter p).length := by
  induction src generalizing l with
  | nil =>
    rw [List.length_eq_zero.mp h]
    simp [maskFilter]
  | cons s rest ih =>
    cases l with
    | nil => simp at h
    | cons a lrest =>
      simp only [List.length_cons, Nat.succ.injEq] at h
      by_cases hp : p s
      · simp [maskFilter, List.filter_cons, hp] at ih ⊢
        exact ih lrest h
      · simp only [Bool.not_eq_true] at hp
        simp [maskFilter, List.filter_cons, hp] at ih ⊢
        exact ih lrest h

/-- The remapped ids and the mask-filtered parallel array remain aligned:
zipping them recovers exactly the present `(id, payload)` pairs, each id
replaced by its position in `index`. -/
lemma zip_mapIndex_maskFilter {α : Type} (src : List ℕ) (l : List α)
    (index : List ℕ) (h : src.length = l.length) :
    ((mapIndex src index).1).zip
        (maskFilter l (src.map (fun s => decide (s ∈ index)))) =
    ((src.zip l).filter (fun p => decide (p.1 ∈ index))).map
      (fun p => (index.indexOf p.1, p.2)) := by
  induction src generalizing l with
  | nil => simp [mapIndex, maskFilter]
  | cons s rest ih =>
    cases l with
    | nil => simp at h
    | cons a lrest =>
      simp only [List.length_cons, Nat.succ.injEq] at h
      by_cases hp : s ∈ index
      · simp only [mapIndex, maskFilter] at ih ⊢
        simp [hp, List.filter_cons, ih lrest h]
      · simp only [mapIndex, maskFilter] at ih ⊢
        simp [hp, List.filter_cons, ih lrest h]

/-- **C7**: each non-inclusive remap of `sample_step`, independently of
the other, filters every parallel per-id array by the same validity mask
as the ids themselves — whenever the positives remap is not inclusive,
`lhs_y_batch` is filtered by the positives' mask; whenever the sparse-path
remap is not inclusive, `lhs_idgnn_batch` together with
`rhs_gnn_embedding` is filtered by the sparse-path mask — so on that
branch the returned parallel arrays have equal lengths and stay
element-wise aligned: zipping the remapped ids with the filtered payloads
yields exactly the present `(id, payload)` pairs with each id replaced by
its sampled position. -/
theorem masked_remap_filters_parallel_arrays
    (n k : ℕ) (rnd : ℕ → ℚ) (emb : ℕ → List ℚ)
    (idgnn lhsb : List ℕ) (gnnE : List (List ℚ)) (lhsy y : List ℕ)
    (hpar1 : lhsy.length = y.length)
    (hpar2 : lhsb.length = idgnn.length)
    (hpar3 : gnnE.length = idgnn.length) :
    (¬ (y.length ≤ k) →
      (sampleStep n k rnd emb idgnn lhsb gnnE lhsy y).lhs_y_batch =
        maskFilter lhsy (mapIndex y (sampleIndices rnd idgnn y n k)).2 ∧
      (sampleStep n k rnd emb idgnn lhsb gnnE lhsy y).lhs_y_batch.length =
        (sampleStep n k rnd emb idgnn lhsb gnnE lhsy
          y).rhs_y_index.length ∧
      (sampleStep n k rnd emb idgnn lhsb gnnE lhsy y).rhs_y_index.zip
          (sampleStep n k rnd emb idgnn lhsb gnnE lhsy y).lhs_y_batch =
        ((y.zip lhsy).filter
            (fun p => decide (p.1 ∈ sampleIndices rnd idgnn y n k))).map
          (fun p => ((sampleIndices rnd idgnn y n k).indexOf p.1, p.2))) ∧
    (¬ ((sampleStep n k rnd emb idgnn lhsb gnnE lhsy
          y).rhs_y_index.length + idgnn.length ≤ k) →
      (sampleStep n k rnd emb idgnn lhsb gnnE lhsy y).lhs_idgnn_batch =
        maskFilter lhsb
          (mapIndex idgnn (sampleIndices rnd idgnn y n k)).2 ∧
      (sampleStep n k rnd emb idgnn lhsb gnnE lhsy y).rhs_gnn_embedding =
        maskFilter gnnE
          (mapIndex idgnn (sampleIndices rnd idgnn y n k)).2 ∧
      (sampleStep n k rnd emb idgnn lhsb gnnE lhsy
          y).lhs_idgnn_batch.length =
        (sampleStep n k rnd emb idgnn lhsb gnnE lhsy
          y).rhs_idgnn_index.length ∧
      (sampleStep n k rnd emb idgnn lhsb gnnE lhsy
          y).rhs_gnn_embedding.length =
        (sampleStep n k rnd emb idgnn lhsb gnnE lhsy
          y).rhs_idgnn_index.length ∧
      (sampleStep n k rnd emb idgnn lhsb gnnE lhsy y).rhs_idgnn_index.zip
          (sampleStep n k rnd emb idgnn lhsb gnnE lhsy
            y).lhs_idgnn_batch =
        ((idgnn.zip lhsb).filter
            (fun p => decide (p.1 ∈ sampleIndices rnd idgnn y n k))).map
          (fun p => ((sampleIndices rnd idgnn y n k).indexOf p.1, p.2)))
    := by
  have hmask1 : (mapIndex y (sampleIndices rnd idgnn y n k)).2 =
      y.map (fun s => decide (s ∈ sampleIndices rnd idgnn y n k)) := rfl
  have hmask2 : (mapIndex idgnn (sampleIndices rnd idgnn y n k)).2 =
      idgnn.map (fun s => decide (s ∈ sampleIndices rnd idgnn y n k)) := rfl
  constructor
  · intro hni1
    have hyeq : (sampleStep n k rnd emb idgnn lhsb gnnE lhsy
        y).rhs_y_index
        = (mapIndex y (sampleIndices rnd idgnn y n k)).1 := by
      simp [sampleStep, hni1]
    have hlb : (sampleStep n k rnd emb idgnn lhsb gnnE lhsy y).lhs_y_batch
        = maskFilter lhsy (mapIndex y (sampleIndices rnd idgnn y n k)).2
        := by
      simp [sampleStep, hni1]
    refine ⟨hlb, ?_, ?_⟩
    · rw [hlb, hyeq, hmask1, maskFilter_length _ _ _ hpar1,
        mapIndex_fst_length]
    · rw [hlb, hyeq, hmask1]
      exact zip_mapIndex_maskFilter y lhsy _ hpar1.symm
  · intro hni2
    have hkey : (sampleStep n k rnd emb idgnn lhsb gnnE lhsy
          y).lhs_idgnn_batch =
        maskFilter lhsb
          (mapIndex idgnn (sampleIndices rnd idgnn y n k)).2 ∧
        (sampleStep n k rnd emb idgnn lhsb gnnE lhsy
          y).rhs_gnn_embedding =
        maskFilter gnnE
          (mapIndex idgnn (sampleIndices rnd idgnn y n k)).2 ∧
        (sampleStep n k rnd emb idgnn lhsb gnnE lhsy
          y).rhs_idgnn_index =
        (mapIndex idgnn (sampleIndices rnd idgnn y n k)).1 := by
      by_cases hincl1 : y.length ≤ k
      · have hyeq : (sampleStep n k rnd emb idgnn lhsb gnnE lhsy
            y).rhs_y_index =
            mapIndexInclusive y (sampleIndices rnd idgnn y n k) := by
          simp [sampleStep, hincl1]
        rw [hyeq] at hni2
        refine ⟨?_, ?_, ?_⟩ <;> simp [sampleStep, hincl1, hni2]
      · have hyeq : (sampleStep n k rnd emb idgnn lhsb gnnE lhsy
            y).rhs_y_index =
            (mapIndex y (sampleIndices rnd idgnn y n k)).1 := by
          simp [sampleStep, hincl1]
        rw [hyeq] at hni2
        refine ⟨?_, ?_, ?_⟩ <;> simp [sampleStep, hincl1, hni2]
    obtain ⟨hib, hge, hieq⟩ := hkey
    refine ⟨hib, hge, ?_, ?_, ?_⟩
    · rw [hib, hieq, hmask2, maskFilter_length _ _ _ hpar2,
        mapIndex_fst_length]
    · rw [hge, hieq, hmask2, maskFilter_length _ _ _ hpar3,
        mapIndex_fst_length]
    · rw [hib, hieq, hmask2]
      exact zip_mapIndex_maskFilter idgnn lhsb _ hpar2.symm

/-- Witness for C7, exercising the two non-inclusive branches
independently: first batch `y = [0, 1, 2]`, `k = 2` — the positives remap
alone is not inclusive; second batch `y = [0]`, `idgnn = [1, 2, 3]`,
`k = 2` — the positives fit (`inclusive1` holds) but the sparse-path
remap is not inclusive, and `lhs_idgnn_batch` / `rhs_gnn_embedding` are
filtered by the sparse mask. -/
theorem masked_remap_filters_parallel_arrays_witness :
    ((sampleStep 4 2 (fun _ => (0 : ℚ)) (fun _ => []) [3] [7]
        [[5]] [10, 11, 12] [0, 1, 2]).lhs_y_batch =
      maskFilter [10, 11, 12]
        (mapIndex [0, 1, 2]
          (sampleIndices (fun _ => (0 : ℚ)) [3] [0, 1, 2] 4 2)).2 ∧
     (sampleStep 4 2 (fun _ => (0 : ℚ)) (fun _ => []) [3] [7]
        [[5]] [10, 11, 12] [0, 1, 2]).lhs_y_batch.length =
      (sampleStep 4 2 (fun _ => (0 : ℚ)) (fun _ => []) [3] [7]
        [[5]] [10, 11, 12] [0, 1, 2]).rhs_y_index.length ∧
     (sampleStep 4 2 (fun _ => (0 : ℚ)) (fun _ => []) [3] [7]
        [[5]] [10, 11, 12] [0, 1, 2]).rhs_y_index.zip
        (sampleStep 4 2 (fun _ => (0 : ℚ)) (fun _ => []) [3] [7]
          [[5]] [10, 11, 12] [0, 1, 2]).lhs_y_batch =
      ((([0, 1, 2] : List ℕ).zip ([10, 11, 12] : List ℕ)).filter
          (fun p => decide (p.1 ∈
            sampleIndices (fun _ => (0 : ℚ)) [3] [0, 1, 2] 4 2))).map
        (fun p =>
          ((sampleIndices (fun _ => (0 : ℚ)) [3] [0, 1, 2] 4 2).indexOf
            p.1, p.2))) ∧
    ((sampleStep 4 2 (fun _ => (0 : ℚ)) (fun _ => []) [1, 2, 3] [7, 8, 9]
        [[5], [6], [7]] [10] [0]).lhs_idgnn_batch =
      maskFilter [7, 8, 9]
        (mapIndex [1, 2, 3]
          (sampleIndices (fun _ => (0 : ℚ)) [1, 2, 3] [0] 4 2)).2 ∧
     (sampleStep 4 2 (fun _ => (0 : ℚ)) (fun _ => []) [1, 2, 3] [7, 8, 9]
        [[5], [6], [7]] [10] [0]).rhs_gnn_embedding =
      maskFilter [[5], [6], [7]]
        (mapIndex [1, 2, 3]
          (sampleIndices (fun _ => (0 : ℚ)) [1, 2, 3] [0] 4 2)).2 ∧
     (sampleStep 4 2 (fun _ => (0 : ℚ)) (fun _ => []) [1, 2, 3] [7, 8, 9]
        [[5], [6], [7]] [10] [0]).lhs_idgnn_batch.length =
      (sampleStep 4 2 (fun _ => (0 : ℚ)) (fun _ => []) [1, 2, 3] [7, 8, 9]
        [[5], [6], [7]] [10] [0]).rhs_idgnn_index.length ∧
     (sampleStep 4 2 (fun _ => (0 : ℚ)) (fun _ => []) [1, 2, 3] [7, 8, 9]
        [[5], [6], [7]] [10] [0]).rhs_gnn_embedding.length =
      (sampleStep 4 2 (fun _ => (0 : ℚ)) (fun _ => []) [1, 2, 3] [7, 8, 9]
        [[5], [6], [7]] [10] [0]).rhs_idgnn_index.length ∧
     (sampleStep 4 2 (fun _ => (0 : ℚ)) (fun _ => []) [1, 2, 3] [7, 8, 9]
        [[5], [6], [7]] [10] [0]).rhs_idgnn_index.zip
        (sampleStep 4 2 (fun _ => (0 : ℚ)) (fun _ => []) [1, 2, 3]
          [7, 8, 9] [[5], [6], [7]] [10] [0]).lhs_idgnn_batch =
      ((([1, 2, 3] : List ℕ).zip ([7, 8, 9] : List ℕ)).filter
          (fun p => decide (p.1 ∈
            sampleIndices (fun _ => (0 : ℚ)) [1, 2, 3] [0] 4 2))).map
        (fun p =>
          ((sampleIndices (fun _ => (0 : ℚ)) [1, 2, 3] [0] 4 2).indexOf
            p.1, p.2))) :=
  ⟨(masked_remap_filters_parallel_arrays 4 2 (fun _ => 0) (fun _ => [])
      [3] [7] [[5]] [10, 11, 12] [0, 1, 2]
      (by decide) (by decide) (by decide)).1 (by decide),
   (masked_remap_filters_parallel_arrays 4 2 (fun _ => 0) (fun _ => [])
      [1, 2, 3] [7, 8, 9] [[5], [6], [7]] [10] [0]
      (by decide) (by decide) (by decide)).2 (by decide)⟩

/-- Dot product of two real vectors, modelling `(a * b).sum(dim=-1)` and
one entry of a matrix product. -/
def dotQ (a b : List ℚ) : ℚ := (List.zipWith (· * ·) a b).sum

/-- Model of the advanced-indexing assignment
`M[rows, cols] = vals` on a dense matrix viewed as a function of its two
indices: the coordinate writes are applied left to right, a later write
overriding an earlier one at the same cell. -/
def scatter2d : (ℕ → ℕ → ℚ) → List ℕ → List ℕ → List ℚ → ℕ → ℕ → ℚ
  | M, r :: rs, c :: cs, x :: xs =>
    scatter2d (fun a b => if a = r ∧ b = c then x else M a b) rs cs xs
  | M, _, _, _ => M

lemma scatter2d_of_not_mem {M : ℕ → ℕ → ℚ} {rows cols : List ℕ}
    {vals : List ℚ} {a b : ℕ} (h : (a, b) ∉ rows.zip cols) :
    scatter2d M rows cols vals a b = M a b := by
  induction rows generalizing M cols vals with
  | nil => rfl
  | cons r rs ih =>
    cases cols with
    | nil => rfl
    | cons c cs =>
      cases vals with
      | nil => rfl
      | cons x xs =>
        simp only [List.zip_cons_cons, List.mem_cons] at h
        push_neg at h
        have h1 : ¬ (a = r ∧ b = c) := by
          intro hc
          exact h.1 (Prod.ext hc.1 hc.2)
        simp only [scatter2d]
        rw [ih h.2]
        simp [h1]

lemma scatter2d_at {M : ℕ → ℕ → ℚ} {rows cols : List ℕ} {vals : List ℚ}
    {j : ℕ} (hlen1 : rows.length = cols.length)
    (hlen2 : rows.length = vals.length)
    (hdist : (rows.zip cols).Nodup) (hj : j < rows.length) :
    scatter2d M rows cols vals (rows.getD j 0) (cols.getD j 0) =
      vals.getD j 0 := by
  induction rows generalizing M cols vals j with
  | nil => simp at hj
  | cons r rs ih =>
    cases cols with
    | nil => simp at hlen1
    | cons c cs =>
      cases vals with
      | nil => simp at hlen2
      | cons x xs =>
        simp only [List.length_cons, Nat.succ.injEq] at hlen1 hlen2
        simp only [List.zip_cons_cons, List.nodup_cons] at hdist
        cases j with
        | zero =>
          simp only [List.getD_cons_zero, scatter2d]
          rw [scatter2d_of_not_mem hdist.1]
          simp
        | succ j =>
          simp only [List.getD_cons_succ, scatter2d]
          simp only [List.length_cons, Nat.succ_lt_succ_iff] at hj
          exact ih hlen1 hlen2 hdist.2 hj

/-- The sparse-path score vector of `construct_logits`
(`contextgnn.py` lines 136-149): the learned head applied to each sampled
RHS embedding, plus the inner product with the root embedding of the
owning batch row, plus that row's learned ID-GNN offset.  `headF` models
`self.head`, `linOffsetIdgnn` models `self.lin_offset_idgnn`. -/
def idgnnLogits (headF linOffsetIdgnn : List ℚ → ℚ)
    (lhs_embedding_projected lhs_embedding rhs_gnn_embedding :
      List (List ℚ))
    (lhs_idgnn_batch : List ℕ) : List ℚ :=
  (List.range rhs_gnn_embedding.length).map (fun j =>
    headF (rhs_gnn_embedding.getD j []) +
    dotQ (lhs_embedding.getD (lhs_idgnn_batch.getD j 0) [])
      (rhs_gnn_embedding.getD j []) +
    linOffsetIdgnn
      (lhs_embedding_projected.getD (lhs_idgnn_batch.getD j 0) []))

/-- The dense bilinear score matrix of `construct_logits`
(`contextgnn.py` lines 127-133): `lhs_embedding_projected @
rhs_embedding.t()` plus the per-row embedding-GNN offset. -/
def embgnnLogits (linOffsetEmbgnn : List ℚ → ℚ)
    (lhs_embedding_projected rhs_embedding : List (List ℚ)) :
    ℕ → ℕ → ℚ :=
  fun r c =>
    dotQ (lhs_embedding_projected.getD r []) (rhs_embedding.getD c []) +
    linOffsetEmbgnn (lhs_embedding_projected.getD r [])

/-- Model of `ContextGNN.construct_logits` (`contextgnn.py` lines
124-152): the dense matrix overwritten at the sparse coordinates
`embgnn_logits[lhs_idgnn_batch, rhs_idgnn_index] = idgnn_logits`. -/
def construct_logits (headF linOffsetIdgnn linOffsetEmbgnn : List ℚ → ℚ)
    (lhs_embedding_projected lhs_embedding rhs_gnn_embedding
      rhs_embedding : List (List ℚ))
    (lhs_idgnn_batch rhs_idgnn_index : List ℕ) : ℕ → ℕ → ℚ :=
  scatter2d
    (embgnnLogits linOffsetEmbgnn lhs_embedding_projected rhs_embedding)
    lhs_idgnn_batch rhs_idgnn_index
    (idgnnLogits headF linOffsetIdgnn lhs_embedding_projected lhs_embedding
      rhs_gnn_embedding lhs_idgnn_batch)

/-- **C1**: in the fused logit matrix, the cell at each supplied sparse
coordinate `(lhs_idgnn_batch[j], rhs_idgnn_index[j])` equals the sparse
score `idgnn_logits[j]` — whose last summand is that row's learned offset
`lin_offset_idgnn` — overwriting the dense value there; every cell not
listed as a sparse coordinate equals the dense bilinear score plus that
row's learned offset `lin_offset_embgnn`.  The sparse coordinate pairs of
a batch are pairwise distinct. -/
theorem construct_logits_fusion
    (headF linOffsetIdgnn linOffsetEmbgnn : List ℚ → ℚ)
    (lhs_proj lhs_emb gnnE rhsE : List (List ℚ))
    (batchIds cols : List ℕ)
    (hlen1 : batchIds.length = cols.length)
    (hlen2 : batchIds.length = gnnE.length)
    (hdist : (batchIds.zip cols).Nodup) :
    (∀ j, j < batchIds.length →
      construct_logits headF linOffsetIdgnn linOffsetEmbgnn lhs_proj
        lhs_emb gnnE rhsE batchIds cols
        (batchIds.getD j 0) (cols.getD j 0) =
      headF (gnnE.getD j []) +
        dotQ (lhs_emb.getD (batchIds.getD j 0) []) (gnnE.getD j []) +
        linOffsetIdgnn (lhs_proj.getD (batchIds.getD j 0) [])) ∧
    (∀ r c, (r, c) ∉ batchIds.zip cols →
      construct_logits headF linOffsetIdgnn linOffsetEmbgnn lhs_proj
        lhs_emb gnnE rhsE batchIds cols r c =
      dotQ (lhs_proj.getD r []) (rhsE.getD c []) +
        linOffsetEmbgnn (lhs_proj.getD r [])) := by
  constructor
  · intro j hj
    have hval : (idgnnLogits headF linOffsetIdgnn lhs_proj lhs_emb gnnE
        batchIds).getD j 0 =
        headF (gnnE.getD j []) +
          dotQ (lhs_emb.getD (batchIds.getD j 0) []) (gnnE.getD j []) +
          linOffsetIdgnn (lhs_proj.getD (batchIds.getD j 0) []) := by
      have hjg : j < gnnE.length := hlen2 ▸ hj
      rw [idgnnLogits, List.getD_eq_getElem _ _ (by simpa using hjg)]
      simp
    rw [construct_logits,
      scatter2d_at hlen1 (by simp [idgnnLogits, hlen2]) hdist hj, hval]
  · intro r c hrc
    rw [construct_logits, scatter2d_of_not_mem hrc]
    rfl

/-- Witness for C1: a 2-row batch with sampled width 2, one sparse
coordinate per row; the sparse cells take the ID-GNN score, the untouched
cell `(0, 1)` keeps the dense score. -/
theorem construct_logits_fusion_witness :
    (∀ j, j < ([0, 1] : List ℕ).length →
      construct_logits (fun v => v.getD 0 0) (fun v => v.getD 0 0)
        (fun v => v.getD 0 0) [[2], [3]] [[5], [7]] [[11], [13]]
        [[1], [1]] [0, 1] [0, 1]
        (([0, 1] : List ℕ).getD j 0) (([0, 1] : List ℕ).getD j 0) =
      (fun v => v.getD 0 0) (([[11], [13]] : List (List ℚ)).getD j []) +
        dotQ (([[5], [7]] : List (List ℚ)).getD
            (([0, 1] : List ℕ).getD j 0) [])
          (([[11], [13]] : List (List ℚ)).getD j []) +
        (fun v => v.getD 0 0) (([[2], [3]] : List (List ℚ)).getD
          (([0, 1] : List ℕ).getD j 0) [])) ∧
    (∀ r c, (r, c) ∉ ([0, 1] : List ℕ).zip ([0, 1] : List ℕ) →
      construct_logits (fun v => v.getD 0 0) (fun v => v.getD 0 0)
        (fun v => v.getD 0 0) [[2], [3]] [[5], [7]] [[11], [13]]
        [[1], [1]] [0, 1] [0, 1] r c =
      dotQ (([[2], [3]] : List (List ℚ)).getD r [])
          (([[1], [1]] : List (List ℚ)).getD c []) +
        (fun v => v.getD 0 0) (([[2], [3]] : List (List ℚ)).getD r [])) :=
  construct_logits_fusion (fun v => v.getD 0 0) (fun v => v.getD 0 0)
    (fun v => v.getD 0 0) [[2], [3]] [[5], [7]] [[11], [13]] [[1], [1]]
    [0, 1] [0, 1] (by decide) (by decide) (by decide)

/-- Model of `torch_frame.data.multi_tensor._batched_arange(count)`: the
batch array repeats each position `i` exactly `count[i]` times
(`arange(len(count)).repeat_interleave(count)`) and the arange array
counts from zero within each block (`arange(total) - ptr[batch]`). -/
def batchedArange (count : List ℕ) : List ℕ × List ℕ :=
  ((count.enum.map (fun p => List.replicate p.2 p.1)).flatten,
   (count.map List.range).flatten)

/-- Model of `get_rhs_index` (`relbench_multi_vae.py` lines 165-173):
expand the CSR adjacency `(rowptr, col)` at the selected rows into flat
parallel arrays via `col[arange + rowptr[src_index][src_batch]]`. -/
def get_rhs_index (src_index rowptr col : List ℕ) : List ℕ × List ℕ :=
  let count := src_index.map
    (fun r => rowptr.getD (r + 1) 0 - rowptr.getD r 0)
  let ba := batchedArange count
  (ba.1, (ba.1.zip ba.2).map
    (fun p => col.getD (p.2 + rowptr.getD (src_index.getD p.1 0) 0) 0))

lemma zip_replicate_left {β : Type} (x : ℕ) (l : List β) :
    (List.replicate l.length x).zip l = l.map (fun b => (x, b)) := by
  induction l with
  | nil => rfl
  | cons b bs ih => simp [List.replicate_succ, ih]

/-- Zipping a block-tag array (position `i` repeated `count[i]` times)
with the flattened blocks tags every element of block `i` with `i`. -/
lemma zip_flatten_replicate {β : Type} :
    ∀ (cs : List ℕ) (G : List (List β)) (s : ℕ),
    cs.length = G.length →
    (∀ j (h1 : j < cs.length) (h2 : j < G.length),
      (G[j]).length = cs[j]) →
    (((cs.enumFrom s).map (fun p => List.replicate p.2 p.1)).flatten).zip
        G.flatten =
    ((G.enumFrom s).map (fun p => p.2.map (fun b => (p.1, b)))).flatten := by
  intro cs
  induction cs with
  | nil =>
    intro G s hlen hseg
    rw [List.length_nil] at hlen
    rw [List.length_eq_zero.mp hlen.symm]
    rfl
  | cons c cr ih =>
    intro G s hlen hseg
    cases G with
    | nil => simp at hlen
    | cons g gr =>
      simp only [List.length_cons, Nat.succ.injEq] at hlen
      have hg : g.length = c := by
        have := hseg 0 (by simp) (by simp)
        simpa using this
      simp only [List.enumFrom_cons, List.map_cons, List.flatten_cons]
      rw [List.zip_append (by simp [hg])]
      rw [← hg, zip_replicate_left]
      congr 1
      refine ih gr (s + 1) hlen ?_
      intro j h1 h2
      have := hseg (j + 1) (by simpa using h1) (by simpa using h2)
      simpa using this

/-- Extracting the elements tagged `i` from a tagged flattened list
returns exactly block `i`. -/
lemma filterMap_tagged {β : Type} :
    ∀ (G : List (List β)) (s i : ℕ),
    (((G.enumFrom s).map
        (fun p => p.2.map (fun b => (p.1, b)))).flatten).filterMap
      (fun q => if q.1 = i then some q.2 else none) =
    if s ≤ i ∧ i - s < G.length then G.getD (i - s) [] else [] := by
  intro G
  induction G with
  | nil =>
    intro s i
    simp
  | cons g gr ih =>
    intro s i
    simp only [List.enumFrom_cons, List.map_cons, List.flatten_cons,
      List.filterMap_append, List.filterMap_map]
    rw [ih (s + 1) i]
    by_cases hsi : s = i
    · subst hsi
      have h1 : ¬ (s + 1 ≤ s ∧ s - (s + 1) < gr.length) := by omega
      rw [if_neg h1, if_pos (by simp)]
      have hcomp : ((fun q : ℕ × β => if q.1 = s then some q.2 else none) ∘
          (fun b : β => (s, b))) = some := by
        funext b
        simp
      rw [hcomp]
      simp
    · have hhead : (g.filterMap
          ((fun q => if q.1 = i then some q.2 else none) ∘
            (fun b => (s, b)))) = [] := by
        have : ((fun q : ℕ × β => if q.1 = i then some q.2 else none) ∘
            (fun b : β => (s, b))) = fun _ => none := by
          funext b
          simp [Function.comp, hsi]
        rw [this]
        simp
      rw [hhead, List.nil_append]
      by_cases hc : s + 1 ≤ i ∧ i - (s + 1) < gr.length
      · rw [if_pos hc, if_pos (by simp only [List.length_cons]; omega)]
        have hstep : i - s = (i - (s + 1)) + 1 := by omega
        rw [hstep, List.getD_cons_succ]
      · rw [if_neg hc,
          if_neg (by simp only [List.length_cons]; omega)]

/-- A block of successive reads `col[a + b]` for `a < m` is the contiguous
slice `col[b : b + m]`. -/
lemma range_map_getD (col : List ℕ) (b m : ℕ) (h : b + m ≤ col.length) :
    (List.range m).map (fun a => col.getD (a + b) 0) =
    (col.drop b).take m := by
  apply List.ext_getElem
  · simp
    omega
  · intro i h1 h2
    simp only [List.getElem_map, List.getElem_range]
    rw [List.getElem_take, List.getElem_drop,
      List.getD_eq_getElem _ _ (by simp at h1; omega)]
    congr 1
    omega

lemma batchedArange_fst_length (count : List ℕ) :
    (batchedArange count).1.length = count.sum := by
  simp only [batchedArange, List.length_flatten, List.map_map]
  have hfun : (List.length ∘ fun p : ℕ × ℕ => List.replicate p.2 p.1) =
      Prod.snd := by
    funext p
    simp
  rw [hfun, List.enum_map_snd]

/-- Any elementwise function of the `(batch, arange)` pairs of
`_batched_arange` can be written block by block. -/
lemma map_zip_batchedArange {γ : Type} (count : List ℕ) (f : ℕ × ℕ → γ) :
    ((batchedArange count).1.zip (batchedArange count).2).map f =
    (count.enum.map
      (fun q => (List.range q.2).map (fun a => f (q.1, a)))).flatten := by
  have hzip := zip_flatten_replicate count (count.map List.range) 0
    (by simp) (by intro j h1 h2; simp)
  simp only [batchedArange, List.enum_eq_enumFrom]
  rw [hzip, List.map_flatten, List.map_map]
  rw [show List.enumFrom 0 (count.map List.range) =
    (List.enumFrom 0 count).map (Prod.map id List.range) from by
      rw [← List.enum_eq_enumFrom, ← List.enum_eq_enumFrom, List.enum_map]]
  rw [List.map_map]
  congr 1
  refine List.map_congr_left ?_
  intro p _
  simp [List.map_map, Function.comp]

/-- The second output of `get_rhs_index` is the concatenation of the CSR
slices (expressed as blocks of reads) of the selected rows, in selection
order. -/
lemma get_rhs_index_snd_eq (src_index rowptr col : List ℕ) :
    (get_rhs_index src_index rowptr col).2 =
    (src_index.enum.map (fun q => (List.range
        (rowptr.getD (q.2 + 1) 0 - rowptr.getD q.2 0)).map
      (fun a => col.getD (a + rowptr.getD q.2 0) 0))).flatten := by
  show ((batchedArange _).1.zip (batchedArange _).2).map _ = _
  rw [map_zip_batchedArange, List.enum_map, List.map_map]
  congr 1
  refine List.map_congr_left ?_
  rw [List.forall_mem_enum]
  intro i hi
  simp only [Function.comp, Prod.map_apply, id_eq]
  refine List.map_congr_left ?_
  intro a _
  rw [List.getD_eq_getElem _ _ hi]

/-- Zipping the two outputs of `get_rhs_index` yields the tagged
concatenation of the per-row blocks. -/
lemma get_rhs_index_zip_eq (src_index rowptr col : List ℕ) :
    (get_rhs_index src_index rowptr col).1.zip
      (get_rhs_index src_index rowptr col).2 =
    (((src_index.enum.map (fun q => (List.range
          (rowptr.getD (q.2 + 1) 0 - rowptr.getD q.2 0)).map
        (fun a => col.getD (a + rowptr.getD q.2 0) 0))).enumFrom 0).map
      (fun p => p.2.map (fun b => (p.1, b)))).flatten := by
  have h1 : (get_rhs_index src_index rowptr col).1 =
      (batchedArange (src_index.map
        (fun r => rowptr.getD (r + 1) 0 - rowptr.getD r 0))).1 := rfl
  rw [h1, get_rhs_index_snd_eq]
  show ((((src_index.map _).enum).map _).flatten).zip _ = _
  rw [List.enum_eq_enumFrom]
  refine zip_flatten_replicate _ _ 0 (by simp) ?_
  intro j h1 h2
  simp only [List.getElem_map, List.getElem_enum, List.length_map,
    List.length_range]

/-- **C3**: for every well-formed CSR adjacency and every selection of
valid rows, the Expander returns two arrays of equal length — the sum of
the selected rows' out-degrees; the elements carrying batch id `i` are
exactly `col[rowptr[r] : rowptr[r+1]]` for the `i`-th selected row `r`, in
stored order; a degree-zero row contributes zero elements. -/
theorem csr_expander_contract
    (src_index rowptr col : List ℕ) (numSources : ℕ)
    (hlenptr : rowptr.length = numSources + 1)
    (hmono : ∀ j, j < rowptr.length → ∀ i, i ≤ j →
      rowptr.getD i 0 ≤ rowptr.getD j 0)
    (hcol : col.length = rowptr.getD numSources 0)
    (hrows : ∀ r ∈ src_index, r < numSources) :
    ((get_rhs_index src_index rowptr col).1.length =
        (src_index.map
          (fun r => rowptr.getD (r + 1) 0 - rowptr.getD r 0)).sum ∧
     (get_rhs_index src_index rowptr col).2.length =
        (src_index.map
          (fun r => rowptr.getD (r + 1) 0 - rowptr.getD r 0)).sum) ∧
    (∀ i, i < src_index.length →
      ((get_rhs_index src_index rowptr col).1.zip
          (get_rhs_index src_index rowptr col).2).filterMap
        (fun q => if q.1 = i then some q.2 else none) =
      (col.drop (rowptr.getD (src_index.getD i 0) 0)).take
        (rowptr.getD (src_index.getD i 0 + 1) 0 -
          rowptr.getD (src_index.getD i 0) 0)) ∧
    (∀ i, i < src_index.length →
      rowptr.getD (src_index.getD i 0 + 1) 0 -
        rowptr.getD (src_index.getD i 0) 0 = 0 →
      ((get_rhs_index src_index rowptr col).1.zip
          (get_rhs_index src_index rowptr col).2).filterMap
        (fun q => if q.1 = i then some q.2 else none) = []) := by
  have hmain : ∀ i, i < src_index.length →
      ((get_rhs_index src_index rowptr col).1.zip
          (get_rhs_index src_index rowptr col).2).filterMap
        (fun q => if q.1 = i then some q.2 else none) =
      (col.drop (rowptr.getD (src_index.getD i 0) 0)).take
        (rowptr.getD (src_index.getD i 0 + 1) 0 -
          rowptr.getD (src_index.getD i 0) 0) := by
    intro i hi
    rw [get_rhs_index_zip_eq, filterMap_tagged]
    rw [if_pos (by constructor <;> simp [hi])]
    have hiG : i - 0 < (src_index.enum.map (fun q => (List.range
        (rowptr.getD (q.2 + 1) 0 - rowptr.getD q.2 0)).map
      (fun a => col.getD (a + rowptr.getD q.2 0) 0))).length := by
      simp [hi]
    rw [List.getD_eq_getElem _ _ hiG]
    simp only [Nat.sub_zero, List.getElem_map, List.getElem_enum]
    rw [List.getD_eq_getElem _ _ hi]
    have hr : src_index[i] < numSources := hrows _ (src_index.getElem_mem hi)
    have hle1 : rowptr.getD src_index[i] 0 ≤
        rowptr.getD (src_index[i] + 1) 0 :=
      hmono (src_index[i] + 1) (by omega) src_index[i] (by omega)
    have hle2 : rowptr.getD (src_index[i] + 1) 0 ≤
        rowptr.getD numSources 0 :=
      hmono numSources (by omega) (src_index[i] + 1) (by omega)
    refine range_map_getD col _ _ ?_
    omega
  refine ⟨⟨?_, ?_⟩, hmain, ?_⟩
  · exact batchedArange_fst_length _
  · rw [get_rhs_index_snd_eq, List.length_flatten, List.map_map]
    have hfun : (List.length ∘ fun q : ℕ × ℕ => (List.range
        (rowptr.getD (q.2 + 1) 0 - rowptr.getD q.2 0)).map
      (fun a => col.getD (a + rowptr.getD q.2 0) 0)) =
        ((fun r => rowptr.getD (r + 1) 0 - rowptr.getD r 0) ∘
          Prod.snd) := by
      funext q
      simp
    rw [hfun, ← List.map_map, List.enum_map_snd]
  · intro i hi hdeg
    rw [hmain i hi, hdeg, List.take_zero]

/-- Witness for C3 on a concrete CSR: `rowptr = [0, 2, 2, 3]`,
`col = [5, 6, 9]`, three source rows all selected; row 1 has degree
zero. -/
theorem csr_expander_contract_witness :
    (((get_rhs_index [0, 1, 2] [0, 2, 2, 3] [5, 6, 9]).1.length =
        (([0, 1, 2] : List ℕ).map (fun r =>
          ([0, 2, 2, 3] : List ℕ).getD (r + 1) 0 -
            ([0, 2, 2, 3] : List ℕ).getD r 0)).sum ∧
      (get_rhs_index [0, 1, 2] [0, 2, 2, 3] [5, 6, 9]).2.length =
        (([0, 1, 2] : List ℕ).map (fun r =>
          ([0, 2, 2, 3] : List ℕ).getD (r + 1) 0 -
            ([0, 2, 2, 3] : List ℕ).getD r 0)).sum) ∧
     (∀ i, i < ([0, 1, 2] : List ℕ).length →
      ((get_rhs_index [0, 1, 2] [0, 2, 2, 3] [5, 6, 9]).1.zip
          (get_rhs_index [0, 1, 2] [0, 2, 2, 3] [5, 6, 9]).2).filterMap
        (fun q => if q.1 = i then some q.2 else none) =
      (([5, 6, 9] : List ℕ).drop
          (([0, 2, 2, 3] : List ℕ).getD
            (([0, 1, 2] : List ℕ).getD i 0) 0)).take
        (([0, 2, 2, 3] : List ℕ).getD
            (([0, 1, 2] : List ℕ).getD i 0 + 1) 0 -
          ([0, 2, 2, 3] : List ℕ).getD
            (([0, 1, 2] : List ℕ).getD i 0) 0)) ∧
     (∀ i, i < ([0, 1, 2] : List ℕ).length →
      ([0, 2, 2, 3] : List ℕ).getD
          (([0, 1, 2] : List ℕ).getD i 0 + 1) 0 -
        ([0, 2, 2, 3] : List ℕ).getD (([0, 1, 2] : List ℕ).getD i 0) 0
          = 0 →
      ((get_rhs_index [0, 1, 2] [0, 2, 2, 3] [5, 6, 9]).1.zip
          (get_rhs_index [0, 1, 2] [0, 2, 2, 3] [5, 6, 9]).2).filterMap
        (fun q => if q.1 = i then some q.2 else none) = [])) :=
  csr_expander_contract [0, 1, 2] [0, 2, 2, 3] [5, 6, 9] 3
    (by decide) (by decide) (by decide) (by decide)

/-- Model of resolving one (possibly negative) id against a tensor
dimension of size `n`, as PyTorch advanced indexing does in
`rnd[rhs_idgnn_index] = 3.` / `rnd[rhs_y_index] = 4.`: an id in `[0, n)`
addresses that position; an id in `[-n, -1]` silently wraps to `n + id`;
anything else raises `IndexError` (modelled as `none`). -/
def torchResolveIndex (n : ℕ) (i : ℤ) : Option ℕ :=
  if 0 ≤ i ∧ i < (n : ℤ) then some i.toNat
  else if -(n : ℤ) ≤ i ∧ i < 0 then some (i + (n : ℤ)).toNat
  else none

/-- Resolve a whole index tensor against dimension `n`, aborting at the
first id that raises. -/
def resolveAll (n : ℕ) : List ℤ → Option (List ℕ)
  | [] => some []
  | i :: rest =>
    match torchResolveIndex n i, resolveAll n rest with
    | some j, some js => some (j :: js)
    | _, _ => none

/-- The id-consuming entry of the Sampler: resolve every id of both index
tensors (`rnd[rhs_idgnn_index] = 3.`, then `rnd[rhs_y_index] = 4.`),
aborting with `none` as soon as any id raises, and otherwise building the
priority vector on the resolved positions. -/
def checkedPriorities (n : ℕ) (rnd : ℕ → ℚ) (idgnn y : List ℤ) :
    Option (ℕ → ℚ) :=
  match resolveAll n idgnn, resolveAll n y with
  | some idgnnR, some yR => some (samplePriorities rnd idgnnR yR)
  | _, _ => none

lemma resolveAll_eq_none {n : ℕ} {l : List ℤ} :
    resolveAll n l = none ↔ ∃ s ∈ l, torchResolveIndex n s = none := by
  induction l with
  | nil => simp [resolveAll]
  | cons a rest ih =>
    simp only [resolveAll]
    cases ha : torchResolveIndex n a with
    | none =>
      simp only [ha]
      constructor
      · intro _
        exact ⟨a, List.mem_cons_self a rest, ha⟩
      · intro _
        trivial
    | some b =>
      cases hr : resolveAll n rest with
      | none =>
        simp only [ha, hr]
        constructor
        · intro _
          obtain ⟨s, hs, hsn⟩ := ih.mp hr
          exact ⟨s, List.mem_cons_of_mem a hs, hsn⟩
        · intro _
          trivial
      | some js =>
        simp only [ha, hr]
        constructor
        · intro hcontra
          simp at hcontra
        · rintro ⟨s, hs, hsn⟩
          rcases List.mem_cons.mp hs with hsa | hsr
          · subst hsa
            rw [ha] at hsn
            simp at hsn
          · exact absurd hr (by rw [ih.mpr ⟨s, hsr, hsn⟩]; simp)

/-- **C8 counterexample**: the id `-1` lies outside `[0, numCandidates)`
for `numCandidates = 2`, yet the Sampler's priority write does not abort —
it silently wraps the id to position `1`, which then receives the
required-set priority `4`. -/
theorem sampler_negative_id_wraps_counterexample :
    (checkedPriorities 2 (fun _ => 0) [] [(-1 : ℤ)]).isSome = true ∧
    (checkedPriorities 2 (fun _ => 0) [] [(-1 : ℤ)]).elim 0
      (fun f => f 1) = 4 := by
  constructor
  · rfl
  · show (samplePriorities (fun _ => 0) [] [1]) 1 = 4
    exact samplePriorities_of_mem_y (by decide)

/-- **C8 amended**: an id at or above `numCandidates`, or strictly below
`-numCandidates`, aborts the batch with an error; an id in
`[-numCandidates, -1]` does not abort — it is silently wrapped to
`numCandidates + id` (PyTorch negative-indexing semantics). -/
theorem out_of_range_id_handling (n : ℕ) (rnd : ℕ → ℚ)
    (idgnn y : List ℤ) :
    ((∃ s, (s ∈ idgnn ∨ s ∈ y) ∧ (s < -(n : ℤ) ∨ (n : ℤ) ≤ s)) →
      checkedPriorities n rnd idgnn y = none) ∧
    (∀ i : ℤ, -(n : ℤ) ≤ i → i < 0 →
      torchResolveIndex n i = some (i + (n : ℤ)).toNat) := by
  constructor
  · rintro ⟨s, hmem, hout⟩
    have hres : torchResolveIndex n s = none := by
      rcases hout with h | h
      · rw [torchResolveIndex, if_neg (by omega), if_neg (by omega)]
      · rw [torchResolveIndex, if_neg (by omega), if_neg (by omega)]
    rcases hmem with h | h
    · rw [checkedPriorities, resolveAll_eq_none.mpr ⟨s, h, hres⟩]
    · rw [checkedPriorities, resolveAll_eq_none.mpr ⟨s, h, hres⟩]
      cases resolveAll n idgnn <;> rfl
  · intro i h1 h2
    rw [torchResolveIndex, if_neg (by omega), if_pos ⟨h1, h2⟩]

/-- Witness for the amended C8: with `numCandidates = 2`, the id `5`
aborts the batch and the id `-1` wraps to position `1`. -/
theorem out_of_range_id_handling_witness :
    checkedPriorities 2 (fun _ => (0 : ℚ)) [] [(5 : ℤ)] = none ∧
    torchResolveIndex 2 (-1) = some ((-1 : ℤ) + (2 : ℤ)).toNat :=
  ⟨(out_of_range_id_handling 2 (fun _ => 0) [] [(5 : ℤ)]).1
      ⟨5, Or.inr (by decide), Or.inr (by decide)⟩,
   (out_of_range_id_handling 2 (fun _ => 0) [] [(5 : ℤ)]).2 (-1)
      (by decide) (by decide)⟩

/-- The per-batch pipeline of `forward_sample_softmax`
(`contextgnn.py` lines 221-230): `sample_step` followed by
`construct_logits`, returning the sampled candidate array, the two
validity masks produced by the remaps, the fused logit matrix, and the
relabelled training targets `(lhs_y_batch, rhs_y_index)`. -/
def pipeline (n k : ℕ) (rnd : ℕ → ℚ) (emb : ℕ → List ℚ)
    (headF linOffsetIdgnn linOffsetEmbgnn : List ℚ → ℚ)
    (lhs_proj lhs_emb : List (List ℚ))
    (idgnn lhsb : List ℕ) (gnnE : List (List ℚ)) (lhsy y : List ℕ) :
    (List ℕ × List Bool × List Bool) × (ℕ → ℕ → ℚ) × List ℕ × List ℕ :=
  let r := sampleStep n k rnd emb idgnn lhsb gnnE lhsy y
  ((r.rhs_index, (mapIndex y r.rhs_index).2, (mapIndex idgnn r.rhs_index).2),
   construct_logits headF linOffsetIdgnn linOffsetEmbgnn lhs_proj lhs_emb
     r.rhs_gnn_embedding r.rhs_embedding r.lhs_idgnn_batch
     r.rhs_idgnn_index,
   r.lhs_y_batch, r.rhs_y_index)

/-- **C9**: the per-batch pipeline is a deterministic function of its
inputs and the random draws: two runs with equal random vectors (a fixed
random state), equal parameters, and equal batch inputs produce an
identical sampled candidate set, identical validity masks, and an
identical fused logit matrix. -/
theorem pipeline_deterministic
    (n₁ n₂ k₁ k₂ : ℕ) (rnd₁ rnd₂ : ℕ → ℚ) (emb₁ emb₂ : ℕ → List ℚ)
    (headF₁ headF₂ linI₁ linI₂ linE₁ linE₂ : List ℚ → ℚ)
    (lhsP₁ lhsP₂ lhsE₁ lhsE₂ : List (List ℚ))
    (idgnn₁ idgnn₂ lhsb₁ lhsb₂ : List ℕ) (gnnE₁ gnnE₂ : List (List ℚ))
    (lhsy₁ lhsy₂ y₁ y₂ : List ℕ)
    (hn : n₁ = n₂) (hk : k₁ = k₂) (hrnd : rnd₁ = rnd₂)
    (hemb : emb₁ = emb₂) (hhead : headF₁ = headF₂) (hlinI : linI₁ = linI₂)
    (hlinE : linE₁ = linE₂) (hlhsP : lhsP₁ = lhsP₂) (hlhsE : lhsE₁ = lhsE₂)
    (hidgnn : idgnn₁ = idgnn₂) (hlhsb : lhsb₁ = lhsb₂)
    (hgnnE : gnnE₁ = gnnE₂) (hlhsy : lhsy₁ = lhsy₂) (hy : y₁ = y₂) :
    pipeline n₁ k₁ rnd₁ emb₁ headF₁ linI₁ linE₁ lhsP₁ lhsE₁ idgnn₁ lhsb₁
      gnnE₁ lhsy₁ y₁ =
    pipeline n₂ k₂ rnd₂ emb₂ headF₂ linI₂ linE₂ lhsP₂ lhsE₂ idgnn₂ lhsb₂
      gnnE₂ lhsy₂ y₂ := by
  subst hn hk hrnd hemb hhead hlinI hlinE hlhsP hlhsE hidgnn hlhsb hgnnE
    hlhsy hy
  rfl

/-- Witness for C9: two runs of the pipeline on the same concrete batch
coincide. -/
theorem pipeline_deterministic_witness :
    pipeline 4 2 (fun _ => (0 : ℚ)) (fun _ => []) (fun v => v.getD 0 0)
      (fun v => v.getD 0 0) (fun v => v.getD 0 0) [[1]] [[1]] [3] [0]
      [[2]] [0] [1] =
    pipeline 4 2 (fun _ => (0 : ℚ)) (fun _ => []) (fun v => v.getD 0 0)
      (fun v => v.getD 0 0) (fun v => v.getD 0 0) [[1]] [[1]] [3] [0]
      [[2]] [0] [1] :=
  pipeline_deterministic 4 4 2 2 (fun _ => 0) (fun _ => 0) (fun _ => [])
    (fun _ => []) (fun v => v.getD 0 0) (fun v => v.getD 0 0)
    (fun v => v.getD 0 0) (fun v => v.getD 0 0) (fun v => v.getD 0 0)
    (fun v => v.getD 0 0) [[1]] [[1]] [[1]] [[1]] [3] [3] [0] [0]
    [[2]] [[2]] [0] [0] [1] [1] rfl rfl rfl rfl rfl rfl rfl rfl rfl rfl
    rfl rfl rfl rfl

/-- Model of the `Optional` ground-truth index `dst_index = None` of
`forward_sample_softmax` (lines 201-225) flowing into
`assert rhs_y_index is not None` at the start of `sample_step` (line
105): with `None` the call fails the assertion before the top-k sampling
happens (modelled as `none`); with any tensor it proceeds and returns a
result. -/
def sampleStepOpt (n k : ℕ) (rnd : ℕ → ℚ) (emb : ℕ → List ℚ)
    (idgnn lhsb : List ℕ) (gnnE : List (List ℚ)) (lhsy : List ℕ)
    (dst_index : Option (List ℕ)) : Option SampleStepResult :=
  match dst_index with
  | none => none
  | some y => some (sampleStep n k rnd emb idgnn lhsb gnnE lhsy y)

/-- **C10**: calling the sampled-softmax path with `dst_index = None`
fails the `assert rhs_y_index is not None` guard before any sampling
occurs, while under the precondition that a ground-truth index tensor is
supplied the assertion never fires — a non-`None` destination index is a
requirement of the path. -/
theorem dst_index_is_required
    (n k : ℕ) (rnd : ℕ → ℚ) (emb : ℕ → List ℚ)
    (idgnn lhsb : List ℕ) (gnnE : List (List ℚ)) (lhsy : List ℕ) :
    sampleStepOpt n k rnd emb idgnn lhsb gnnE lhsy none = none ∧
    ∀ y, (sampleStepOpt n k rnd emb idgnn lhsb gnnE lhsy
      (some y)).isSome = true :=
  ⟨rfl, fun _ => rfl⟩

end ContextGNN
